import Mathlib

/-!
Verification development for the COCO dataset / training-loop core
(`src/dataset/dataset_coco.py` and `src/engine/trainer.py`).

The Python code is shallowly embedded as executable Lean definitions:

* Python `dict` values built by the helper `to_dict(records, key)` (from the
  repository's `annotations_utils` module, whose source file is not included;
  it is modelled from the spec, which describes it as grouping a record list
  by a key field, insertion-ordered) become association lists
  `List (Nat × List α)` with keys in first-occurrence order.
* Python list slicing `xs[:i]` / `xs[i:]` and indexing `xs[i]` (which accept
  negative indices) are embedded by `pySliceTake` / `pySliceDrop` /
  `pyListGet?`.
* Python floats are embedded as rationals `ℚ`; `int(x)` (truncation toward
  zero) is `ratTrunc`.
* Fallible lookups (`KeyError` / `IndexError` / failed `assert`) are embedded
  with `Option` / `Except`.
-/

/-- Decidable equality for `Except`, needed to evaluate closed runs of the
embedded fallible functions. -/
instance {ε α : Type} [DecidableEq ε] [DecidableEq α] : DecidableEq (Except ε α) := fun a b =>
  match a, b with
  | .ok x, .ok y =>
    if h : x = y then .isTrue (by rw [h]) else .isFalse (fun c => by cases c; exact h rfl)
  | .error x, .error y =>
    if h : x = y then .isTrue (by rw [h]) else .isFalse (fun c => by cases c; exact h rfl)
  | .ok _, .error _ => .isFalse (fun c => by cases c)
  | .error _, .ok _ => .isFalse (fun c => by cases c)

section PythonPrelude

variable {α : Type}

/-- Keys of a Python dict built by grouping a record list by the field `key`,
in first-occurrence order (Python dicts preserve insertion order). -/
def pyKeys (key : α → Nat) : List α → List Nat
  | [] => []
  | a :: xs => key a :: (pyKeys key xs).filter (fun k => k != key a)

/-- Modelled from the spec: `to_dict(records, field)` from the repository's
`src/dataset/annotations_utils.py` (not included under `src/`) groups a list
of records by a key field, mapping each key value to the list of records
carrying it, with keys in first-occurrence order. -/
def to_dict (key : α → Nat) (xs : List α) : List (Nat × List α) :=
  (pyKeys key xs).map (fun k => (k, xs.filter (fun a => key a == k)))

/-- Python dict lookup `d[k]`: `none` models a `KeyError`. -/
def dictGet? (d : List (Nat × List α)) (k : Nat) : Option (List α) :=
  (d.find? (fun p => p.1 == k)).map (fun p => p.2)

/-- The list comprehension `[d[k][0] for k in ks]` over a grouped dict `d`:
for each key take the first record of its group; `none` models the
`KeyError` raised when some key is absent. -/
def firstOfGroups (d : List (Nat × List α)) : List Nat → Option (List α)
  | [] => some []
  | k :: ks =>
    match (dictGet? d k).bind List.head? with
    | none => none
    | some a => (firstOfGroups d ks).map (fun ys => a :: ys)

/-- Effective length of the Python slice prefix `xs[:i]` for a list of length
`len` (negative indices count from the end, clamped at 0). -/
def pySliceLen (len : Nat) (i : Int) : Nat :=
  if 0 ≤ i then i.toNat else ((len : Int) + i).toNat

/-- Python slice `xs[:i]`. -/
def pySliceTake (xs : List α) (i : Int) : List α := xs.take (pySliceLen xs.length i)

/-- Python slice `xs[i:]`. -/
def pySliceDrop (xs : List α) (i : Int) : List α := xs.drop (pySliceLen xs.length i)

/-- Python list indexing `xs[i]` with negative-index wrap-around; `none`
models an `IndexError`. -/
def pyListGet? (xs : List α) (i : Int) : Option α :=
  let j : Int := if i < 0 then (xs.length : Int) + i else i
  if 0 ≤ j ∧ j < (xs.length : Int) then xs.get? j.toNat else none

/-- Python `int(x)` on a rational: truncation toward zero. -/
def ratTrunc (q : ℚ) : Int := if 0 ≤ q then ⌊q⌋ else -⌊-q⌋

/-- Consecutive chunks of given lengths cut from the front of a list. -/
def chunksOf : List Nat → List α → List (List α)
  | [], _ => []
  | n :: ns, xs => xs.take n :: chunksOf ns (xs.drop n)

end PythonPrelude

section PreludeLemmas

variable {α : Type} (key : α → Nat)

theorem head?_mem {l : List α} {a : α} (h : l.head? = some a) : a ∈ l := by
  cases l with
  | nil => cases h
  | cons b t =>
    have hb : b = a := by simpa using h
    exact hb ▸ List.mem_cons_self b t

theorem pyKeys_nodup : ∀ xs : List α, (pyKeys key xs).Nodup
  | [] => List.nodup_nil
  | a :: xs => by
    simp only [pyKeys, List.nodup_cons]
    refine ⟨fun hmem => ?_, (pyKeys_nodup xs).filter _⟩
    have := List.of_mem_filter hmem
    simp at this

theorem mem_pyKeys {k : Nat} : ∀ {xs : List α}, k ∈ pyKeys key xs ↔ k ∈ xs.map key
  | [] => Iff.rfl
  | a :: xs => by
    simp only [pyKeys, List.mem_cons, List.mem_filter, List.map_cons, bne_iff_ne, ne_eq]
    constructor
    · rintro (h | ⟨h, _⟩)
      · exact Or.inl h
      · exact Or.inr (mem_pyKeys.mp h)
    · rintro (h | h)
      · exact Or.inl h
      · by_cases hk : k = key a
        · exact Or.inl hk
        · exact Or.inr ⟨mem_pyKeys.mpr h, hk⟩

theorem pyKeys_eq_of_nodup : ∀ {xs : List α}, (xs.map key).Nodup → pyKeys key xs = xs.map key
  | [], _ => rfl
  | a :: xs, h => by
    simp only [List.map_cons, List.nodup_cons] at h
    simp only [pyKeys, List.map_cons, List.cons.injEq, true_and]
    rw [List.filter_eq_self.mpr, pyKeys_eq_of_nodup h.2]
    intro k hk
    have hmem : k ∈ xs.map key := (mem_pyKeys key).mp hk
    have : k ≠ key a := fun he => h.1 (he ▸ hmem)
    simpa using this

theorem find?_map_keys (f : Nat → List α) (k : Nat) :
    ∀ ks : List Nat,
      (ks.map (fun k' => (k', f k'))).find? (fun p => p.1 == k)
        = if k ∈ ks then some (k, f k) else none := by
  intro ks
  induction ks with
  | nil => rfl
  | cons k0 ks ih =>
    by_cases h : k0 = k
    · subst h
      rw [List.map_cons, List.find?_cons_of_pos _ (by simp), if_pos (List.mem_cons_self k0 ks)]
    · have hki : (k ∈ k0 :: ks) ↔ (k ∈ ks) := by
        constructor
        · intro hc
          rcases List.mem_cons.mp hc with he | hm
          · exact absurd he.symm h
          · exact hm
        · exact fun hm => List.mem_cons_of_mem _ hm
      rw [List.map_cons, List.find?_cons_of_neg _ (by simp [h]), ih]
      by_cases hm : k ∈ ks
      · rw [if_pos hm, if_pos (hki.mpr hm)]
      · rw [if_neg hm, if_neg (fun hc => hm (hki.mp hc))]

theorem dictGet?_to_dict (xs : List α) (k : Nat) :
    dictGet? (to_dict key xs) k
      = if k ∈ pyKeys key xs then some (xs.filter (fun a => key a == k)) else none := by
  unfold dictGet? to_dict
  rw [find?_map_keys]
  by_cases h : k ∈ pyKeys key xs <;> simp [h]

theorem filter_key_ne_nil (xs : List α) {k : Nat} (h : k ∈ xs.map key) :
    xs.filter (fun a => key a == k) ≠ [] := by
  rcases List.mem_map.mp h with ⟨a, ha, hk⟩
  intro hnil
  have : a ∈ xs.filter (fun a => key a == k) := List.mem_filter.mpr ⟨ha, by simp [hk]⟩
  simp [hnil] at this

/-- Inversion of a successful `firstOfGroups` over a `to_dict`-grouped dict:
the fetched records carry exactly the requested keys, in order. -/
theorem firstOfGroups_map_key (xs : List α) :
    ∀ {ks : List Nat} {ys : List α},
      firstOfGroups (to_dict key xs) ks = some ys → ys.map key = ks := by
  intro ks
  induction ks with
  | nil =>
    intro ys h
    simp only [firstOfGroups] at h
    cases h; rfl
  | cons k0 ks ih =>
    intro ys h
    simp only [firstOfGroups] at h
    cases hg : (dictGet? (to_dict key xs) k0).bind List.head? with
    | none => rw [hg] at h; cases h
    | some a =>
      rw [hg] at h
      cases hrec : firstOfGroups (to_dict key xs) ks with
      | none => rw [hrec] at h; cases h
      | some ys' =>
        rw [hrec] at h
        simp only [Option.map_some'] at h
        cases h
        rcases Option.bind_eq_some.mp hg with ⟨g, hget, hhead⟩
        rw [dictGet?_to_dict] at hget
        by_cases hk0 : k0 ∈ pyKeys key xs
        case neg => rw [if_neg hk0] at hget; cases hget
        rw [if_pos hk0] at hget
        cases hget
        have hkey : key a = k0 := by
          have := List.of_mem_filter (head?_mem hhead)
          simpa using this
        simp only [List.map_cons, ih hrec, List.cons.injEq, and_true]
        exact hkey

/-- Records fetched by `firstOfGroups` all come from the grouped list. -/
theorem firstOfGroups_subset (xs : List α) :
    ∀ {ks : List Nat} {ys : List α},
      firstOfGroups (to_dict key xs) ks = some ys → ∀ y ∈ ys, y ∈ xs := by
  intro ks
  induction ks with
  | nil =>
    intro ys h
    simp only [firstOfGroups] at h
    cases h; intro y hy; cases hy
  | cons k0 ks ih =>
    intro ys h
    simp only [firstOfGroups] at h
    cases hg : (dictGet? (to_dict key xs) k0).bind List.head? with
    | none => rw [hg] at h; cases h
    | some a =>
      rw [hg] at h
      cases hrec : firstOfGroups (to_dict key xs) ks with
      | none => rw [hrec] at h; cases h
      | some ys' =>
        rw [hrec] at h
        simp only [Option.map_some'] at h
        cases h
        intro y hy
        rcases List.mem_cons.mp hy with hy | hy
        · rcases Option.bind_eq_some.mp hg with ⟨g, hget, hhead⟩
          rw [dictGet?_to_dict] at hget
          by_cases hk0 : k0 ∈ pyKeys key xs
          · rw [if_pos hk0] at hget
            cases hget
            subst hy
            exact List.mem_of_mem_filter (head?_mem hhead)
          · rw [if_neg hk0] at hget; cases hget
        · exact ih hrec y hy

/-- If some requested key has no record in the grouped list, `firstOfGroups`
fails (the modelled `KeyError`). -/
theorem firstOfGroups_none (xs : List α) {k : Nat} (hk : k ∉ xs.map key) :
    ∀ {ks : List Nat}, k ∈ ks → firstOfGroups (to_dict key xs) ks = none := by
  intro ks
  induction ks with
  | nil => intro h; cases h
  | cons k0 ks ih =>
    intro hmem
    simp only [firstOfGroups]
    rcases List.mem_cons.mp hmem with he | he
    · subst he
      have hnone : dictGet? (to_dict key xs) k = none := by
        rw [dictGet?_to_dict, if_neg]
        rw [mem_pyKeys]; exact hk
      rw [hnone]; rfl
    · cases hg : (dictGet? (to_dict key xs) k0).bind List.head? with
      | none => rfl
      | some a => rw [ih he]; rfl

/-- On a `Nodup` key list, a successful `firstOfGroups` keeps, for every
requested key, exactly the first record grouped under that key. -/
theorem firstOfGroups_filter (xs : List α) :
    ∀ {ks : List Nat} {ys : List α},
      firstOfGroups (to_dict key xs) ks = some ys → ks.Nodup → ∀ k : Nat,
        ys.filter (fun a => key a == k)
          = if k ∈ ks then (xs.filter (fun a => key a == k)).take 1 else [] := by
  intro ks
  induction ks with
  | nil =>
    intro ys h _ k
    simp only [firstOfGroups] at h
    cases h; simp
  | cons k0 ks ih =>
    intro ys h hnd k
    simp only [firstOfGroups] at h
    cases hg : (dictGet? (to_dict key xs) k0).bind List.head? with
    | none => rw [hg] at h; cases h
    | some a =>
      rw [hg] at h
      cases hrec : firstOfGroups (to_dict key xs) ks with
      | none => rw [hrec] at h; cases h
      | some ys' =>
        rw [hrec] at h
        simp only [Option.map_some'] at h
        cases h
        rcases Option.bind_eq_some.mp hg with ⟨g, hget, hhead⟩
        rw [dictGet?_to_dict] at hget
        by_cases hk0 : k0 ∈ pyKeys key xs
        case neg => rw [if_neg hk0] at hget; cases hget
        rw [if_pos hk0] at hget
        cases hget
        have hnd' := (List.nodup_cons.mp hnd).2
        have hk0ks := (List.nodup_cons.mp hnd).1
        have hkey : key a = k0 := by
          have := List.of_mem_filter (head?_mem hhead)
          simpa using this
        by_cases hkk : k = k0
        · subst hkk
          have hfil : ys'.filter (fun a => key a == k) = [] := by
            rw [ih hrec hnd' k, if_neg hk0ks]
          cases hflt : xs.filter (fun a => key a == k) with
          | nil => rw [hflt] at hhead; cases hhead
          | cons b t =>
            have hab : b = a := by rw [hflt] at hhead; simpa using hhead
            subst hab
            rw [if_pos (List.mem_cons_self k ks)]
            simp [List.filter_cons, hkey, hfil, hflt]
        · have hpa : (key a == k) = false := by
            rw [hkey]
            exact beq_eq_false_iff_ne.mpr fun he => hkk he.symm
          simp only [List.filter_cons, hpa, Bool.false_eq_true, if_false]
          rw [ih hrec hnd' k]
          by_cases hm : k ∈ ks
          · rw [if_pos hm, if_pos (List.mem_cons_of_mem _ hm)]
          · rw [if_neg hm, if_neg fun hc => (List.mem_cons.mp hc).elim (fun he => hkk he) hm]

end PreludeLemmas

/-! ## Data model (COCO records, `dataset_coco.py`) -/

/-- A COCO image record (`{id, file_name, ...}`). -/
structure Image where
  id : Nat
  file_name : String
deriving DecidableEq, Repr

/-- A COCO annotation record (`{id, image_id, category_id, ...}`). -/
structure AnnotationRec where
  id : Nat
  image_id : Nat
  category_id : Nat
deriving DecidableEq, Repr

/-- A COCO category record (`{id, name}`). -/
structure CategoryRec where
  id : Nat
  name : String
deriving DecidableEq, Repr

/-- The `tree.data` record of a `CocoDataset`: the three top-level COCO
collections. -/
structure CocoData where
  images : List Image
  annotations : List AnnotationRec
  categories : List CategoryRec
deriving DecidableEq, Repr

/-- A `CocoDataset` (value level).  The `self.images` dict and the
`self.annotations` list (maintained through lines 80 and 85 of
`dataset_coco.py` and by the subclass constructors) are the derived views
`CocoDataset.imagesDict` / `CocoData.annotations` of the tree, so only the
tree is stored. -/
structure CocoDataset where
  tree : CocoData
deriving DecidableEq, Repr

/-- The `self.images` dict: `to_dict(tree.data["images"], "id")`. -/
def CocoDataset.imagesDict (d : CocoDataset) : List (Nat × List Image) :=
  to_dict Image.id d.tree.images

/-- The image-id list of a dataset (ids of `tree.data["images"]`, in order). -/
def imageIds (d : CocoDataset) : List Nat := d.tree.images.map Image.id

/-- Failure modes of `CocoDataset.split`: the failed `assert` on the
percentage sum (the spec's `InvalidSplitError`), and the uncaught `KeyError`
from the annotation-rebuild lookup. -/
inductive SplitError where
  | invalidSplit
  | keyError
deriving DecidableEq, Repr

/-- The sizes `[int(total_images * perc) for perc in percentages]`
(line 70 of `dataset_coco.py`). -/
def subsetSizes (total : Nat) (percentages : List ℚ) : List Int :=
  percentages.map (fun p => ratTrunc ((total : ℚ) * p))

/-- One iteration of the subset loop (lines 75-88 of `dataset_coco.py`):
`subset = deepcopy(self)`; `indexes = all_images[:ss]`;
`subset.tree.data["images"] = [self.images[i][0] for i in indexes]`;
`subset.images = to_dict(...)`;
`image_annotations = to_dict(subset.tree.data["annotations"], "image_id")`
(the deepcopied annotation list equals the source's annotation list);
`subset.tree.data["annotations"] = [image_annotations[image_id][0] for
image_id in subset.images.keys()]` (the following `np.array(...).flatten()
.tolist()` is the identity on this flat record list);
`none` models the `KeyError` raised when a selected image id has no
annotation group. -/
def CocoDataset.makeSubset (d : CocoDataset) (allImages : List Nat) (ss : Int) :
    Option CocoDataset :=
  let indexes := pySliceTake allImages ss
  match firstOfGroups d.imagesDict indexes with
  | none => none
  | some imgs =>
    let image_annotations := to_dict AnnotationRec.image_id d.tree.annotations
    match firstOfGroups image_annotations (pyKeys Image.id imgs) with
    | none => none
    | some anns =>
      some { tree := { images := imgs, annotations := anns, categories := d.tree.categories } }

/-- The `for ss in subset_sizes` loop of `CocoDataset.split`, consuming the
pool `all_images` (`all_images = all_images[ss:]` after each subset). -/
def CocoDataset.splitGo (d : CocoDataset) : List Int → List Nat → Option (List CocoDataset)
  | [], _ => some []
  | ss :: rest, allImages =>
    match d.makeSubset allImages ss with
    | none => none
    | some sub => (d.splitGo rest (pySliceDrop allImages ss)).map (fun subs => sub :: subs)

/-- `CocoDataset.split` with the image-id order `allImages` already fixed
(`random=False` uses the dict-key order; `random=True` a shuffle of it).
Checks `assert np.sum([*percentages]) == 1` first (line 65), then runs the
subset loop with `total_images = len(all_images)`. -/
def CocoDataset.splitWithOrder (d : CocoDataset) (percentages : List ℚ)
    (allImages : List Nat) : Except SplitError (List CocoDataset) :=
  if percentages.sum = 1 then
    match d.splitGo (subsetSizes allImages.length percentages) allImages with
    | some subs => .ok subs
    | none => .error .keyError
  else .error .invalidSplit

/-- `CocoDataset.split(*percentages, random=False)`:
`all_images = list(self.images.keys())` in stored order. -/
def CocoDataset.split (d : CocoDataset) (percentages : List ℚ) :
    Except SplitError (List CocoDataset) :=
  d.splitWithOrder percentages (pyKeys Image.id d.tree.images)

/-! ## `CocoDatasetClassification` (`dataset_coco.py`, lines 116-161) -/

/-- Error modes of `CocoDatasetClassification.__getitem__`: a Python
`IndexError` (the spec's `IndexOutOfRangeError`) or a `KeyError` from the
id-indexed dict lookups. -/
inductive GetItemError where
  | indexError
  | keyError
deriving DecidableEq, Repr

/-- `CocoDatasetClassification.__getitem__(idx)` with the preprocessing,
augmentation and image-reading collaborators held at their valid defaults
(`None` transforms; `read_image` abstracted to the resolved file path):
`annotation = self.annotations[idx]` (Python indexing, negative wrap);
`image_data = self.images[annotation["image_id"]]`;
`image_path = ...image_data[0]["file_name"]`;
`category = self.categories[annotation["category_id"]][0]["id"] - 1`.
Returns the image path together with the zero-based label. -/
def CocoDatasetClassification.getitem (t : CocoData) (idx : Int) :
    Except GetItemError (String × Int) :=
  let images := to_dict Image.id t.images
  let categories := to_dict CategoryRec.id t.categories
  match pyListGet? t.annotations idx with
  | none => .error .indexError
  | some ann =>
    match dictGet? images ann.image_id with
    | none => .error .keyError
    | some imgGroup =>
      match imgGroup.head? with
      | none => .error .indexError
      | some imageData =>
        match dictGet? categories ann.category_id with
        | none => .error .keyError
        | some catGroup =>
          match catGroup.head? with
          | none => .error .indexError
          | some cat => .ok (imageData.file_name, (cat.id : Int) - 1)

/-- `CocoDatasetClassification.__len__`: `len(self.annotations)`. -/
def CocoDatasetClassification.len (t : CocoData) : Nat := t.annotations.length

/-! ## `SupervisedTrainer` (`trainer.py`) -/

/-- The fixed named loss terms of the trainer's accumulator dicts
(lines 53-59 / 102-108 of `trainer.py`); the model collaborator returns one
such record per batch. -/
structure LossDict where
  loss_classifier : ℚ
  loss_box_reg : ℚ
  loss_mask : ℚ
  loss_objectness : ℚ
  loss_rpn_box_reg : ℚ
deriving DecidableEq, Repr

/-- The zero-initialised accumulator `loss_train` / `loss_valid`. -/
def LossDict.zero : LossDict := ⟨0, 0, 0, 0, 0⟩

/-- One accumulation step
`{key: loss_train[key] + value.item() for key, value in losses.items()}`. -/
def LossDict.add (a b : LossDict) : LossDict :=
  ⟨a.loss_classifier + b.loss_classifier, a.loss_box_reg + b.loss_box_reg,
    a.loss_mask + b.loss_mask, a.loss_objectness + b.loss_objectness,
    a.loss_rpn_box_reg + b.loss_rpn_box_reg⟩

/-- The final `{key: loss_train[key] / total_images for key in ...}`. -/
def LossDict.div (a : LossDict) (n : ℚ) : LossDict :=
  ⟨a.loss_classifier / n, a.loss_box_reg / n, a.loss_mask / n,
    a.loss_objectness / n, a.loss_rpn_box_reg / n⟩

/-- `SupervisedTrainer.train` (lines 42-90 of `trainer.py`), abstracted over
the model collaborator: the per-batch loss records are given as a list, and
`total_images = dataset.sampler.num_samples` as a count.  The gradient /
optimizer side effects happen on external collaborators and do not touch the
returned value.  Returns the per-term accumulated sums divided by
`total_images`. -/
def SupervisedTrainer.train (batchLosses : List LossDict) (total_images : Nat) : LossDict :=
  (batchLosses.foldl LossDict.add LossDict.zero).div (total_images : ℚ)

/-- `self.best_loss = 1e20` (line 33 of `trainer.py`; `1e20` is exactly
`10^20` in double precision). -/
def bestLossInit : ℚ := 100000000000000000000

/-- What `fit` does in one epoch, beyond training/validation themselves:
whether the COCO-evaluation phase ran and whether the model was saved. -/
structure EpochResult where
  epoch : Nat
  cocoEvalRun : Bool
  saved : Bool
deriving DecidableEq, Repr

/-- The guard `coco_eval_frequency is not None and epoch % coco_eval_frequency == 0`
(line 216 of `trainer.py`).  (For `f = 0` Python would raise
`ZeroDivisionError`; the theorems below only use positive frequencies.) -/
def cocoFlag (freq : Option Nat) (epoch : Nat) : Bool :=
  match freq with
  | none => false
  | some f => epoch % f == 0

/-- The epoch loop of `SupervisedTrainer.fit` (lines 210-229 of
`trainer.py`), abstracted over the external phases: `losses` is the sequence
of tracked validation-loss values `loss_validation[self.main_metric]`, one
per epoch, and `best` threads `self.best_loss`.  Each epoch records whether
`coco_eval` ran and whether `self.model.save()` was called
(`if loss_validation[self.main_metric] < self.best_loss`). -/
def SupervisedTrainer.fitGo (freq : Option Nat) (best : ℚ) (epoch : Nat) :
    List ℚ → List EpochResult
  | [] => []
  | v :: rest =>
    { epoch := epoch, cocoEvalRun := cocoFlag freq epoch, saved := decide (v < best) }
      :: SupervisedTrainer.fitGo freq (if v < best then v else best) (epoch + 1) rest

/-- `SupervisedTrainer.fit`, starting from `self.best_loss = 1e20` at
epoch 0. -/
def SupervisedTrainer.fitTrace (freq : Option Nat) (losses : List ℚ) : List EpochResult :=
  SupervisedTrainer.fitGo freq bestLossInit 0 losses

/-- Default `EpochResult` used with `List.getD`. -/
def noEpoch : EpochResult := ⟨0, false, false⟩

/-- One predicted instance produced by inference-mode forward
(`boxes`/`labels`/`masks`/`scores`); the mask is the flattened `uint8`
pixel array. -/
structure PredInstance where
  mask : List Nat
  label : Nat
  score : ℚ
deriving DecidableEq, Repr

/-- An annotation appended to the predictions store by
`add_annotation_instance` during `coco_eval` (modelled from the spec: the
store's `add_annotation_instance`, from the `annotations_coco` module not
included under `src/`, appends a new annotation record with the given
fields). -/
structure PredAnn where
  id : Nat
  image_id : Nat
  category_id : Nat
  score : ℚ
  area : Nat
deriving DecidableEq, Repr

/-- The inner instance loop of `SupervisedTrainer.coco_eval` (lines 159-178
of `trainer.py`) for one image: skip any instance whose mask sums to zero
(`if mask.sum() == 0: continue`), otherwise append an annotation with the
running id counter and increment it.  Returns the final counter and the
appended annotations. -/
def SupervisedTrainer.cocoEvalImage (annotation_id : Nat) (image_id : Nat) :
    List PredInstance → Nat × List PredAnn
  | [] => (annotation_id, [])
  | p :: ps =>
    if p.mask.sum == 0 then SupervisedTrainer.cocoEvalImage annotation_id image_id ps
    else
      let rest := SupervisedTrainer.cocoEvalImage (annotation_id + 1) image_id ps
      (rest.1,
        { id := annotation_id, image_id := image_id, category_id := p.label,
          score := p.score, area := (p.mask.filter (fun v => v > 0)).length } :: rest.2)

/-- The outer image loop of `SupervisedTrainer.coco_eval` (lines 146-182):
iterate the ground-truth images, run the model on each
(`model : image id ↦ predicted instances`, abstracting
`self.model([image.to(self.device)], None)[0]`), thread the annotation-id
counter. -/
def SupervisedTrainer.cocoEvalGo (model : Nat → List PredInstance) (annotation_id : Nat) :
    List Nat → List PredAnn
  | [] => []
  | imageId :: rest =>
    let r := SupervisedTrainer.cocoEvalImage annotation_id imageId (model imageId)
    r.2 ++ SupervisedTrainer.cocoEvalGo model r.1 rest

/-- All annotations accumulated into the predictions store by one
`coco_eval` run: the counter starts at `annotation_id = 1` (line 146). -/
def SupervisedTrainer.cocoEvalAnns (imgIds : List Nat) (model : Nat → List PredInstance) :
    List PredAnn :=
  SupervisedTrainer.cocoEvalGo model 1 imgIds

/-! ## Object-identity model of `CocoDataset.split`

To settle the aliasing claim about `split` (which records are shared and
which are fresh copies), the same lines 75-88 of `dataset_coco.py` are
embedded a second time at the level of Python object identity: record
objects live in a heap (one address space per record kind, an address being
a position in the heap list), dataset objects hold lists of addresses,
`deepcopy` appends fresh copies of all reachable records, and line 79
(`[self.images[i][0] for i in indexes]`) installs the *source's* image-record
addresses in the subset, exactly as the Python expression does. -/

/-- The heap of record objects: one address space per record kind. -/
structure Heap where
  imgHeap : List Image
  annHeap : List AnnotationRec
  catHeap : List CategoryRec
deriving DecidableEq, Repr

/-- A dataset object at the identity level: the addresses of its
`tree.data["images"]`, `tree.data["annotations"]` and
`tree.data["categories"]` record objects.  (The `self.images` /
`self.annotations` views hold the same addresses and are derived.) -/
structure DatasetRef where
  imgAddrs : List Nat
  annAddrs : List Nat
  catAddrs : List Nat
deriving DecidableEq, Repr

/-- Dereference an image-record address. -/
def Heap.readImg (h : Heap) (a : Nat) : Image := h.imgHeap.getD a ⟨0, ""⟩

/-- Dereference an annotation-record address. -/
def Heap.readAnn (h : Heap) (a : Nat) : AnnotationRec := h.annHeap.getD a ⟨0, 0, 0⟩

/-- Dereference a category-record address. -/
def Heap.readCat (h : Heap) (a : Nat) : CategoryRec := h.catHeap.getD a ⟨0, ""⟩

/-- The image records a dataset object currently sees. -/
def Heap.readImages (h : Heap) (d : DatasetRef) : List Image := d.imgAddrs.map h.readImg

/-- The annotation records a dataset object currently sees. -/
def Heap.readAnns (h : Heap) (d : DatasetRef) : List AnnotationRec := d.annAddrs.map h.readAnn

/-- The category records a dataset object currently sees. -/
def Heap.readCats (h : Heap) (d : DatasetRef) : List CategoryRec := d.catAddrs.map h.readCat

/-- In-place mutation of the image record at address `a`
(e.g. `img["file_name"] = ...` on one record object). -/
def Heap.writeImg (h : Heap) (a : Nat) (r : Image) : Heap :=
  { h with imgHeap := h.imgHeap.set a r }

/-- In-place mutation of the annotation record at address `a`. -/
def Heap.writeAnn (h : Heap) (a : Nat) (r : AnnotationRec) : Heap :=
  { h with annHeap := h.annHeap.set a r }

/-- `subset = deepcopy(self)` (line 76): append fresh copies of every record
reachable from `d` and return the new object with the fresh addresses. -/
def Heap.deepcopyRef (h : Heap) (d : DatasetRef) : Heap × DatasetRef :=
  ({ imgHeap := h.imgHeap ++ h.readImages d,
     annHeap := h.annHeap ++ h.readAnns d,
     catHeap := h.catHeap ++ h.readCats d },
   { imgAddrs := List.range' h.imgHeap.length d.imgAddrs.length,
     annAddrs := List.range' h.annHeap.length d.annAddrs.length,
     catAddrs := List.range' h.catHeap.length d.catAddrs.length })

/-- The `self.images` dict at the identity level: image id ↦ addresses of
the records with that id (the dict values alias the records of
`tree.data["images"]`). -/
def Heap.imagesDictRef (h : Heap) (d : DatasetRef) : List (Nat × List Nat) :=
  to_dict (fun a => (h.readImg a).id) d.imgAddrs

/-- One iteration of the subset loop (lines 75-88) at the identity level.
Line 79 takes `self.images[i][0]` — the source's record objects, not the
deepcopied ones — so the subset's image addresses alias the source's.
Lines 82-83 group the *deepcopied* annotation records by image id and keep
the first address per selected image id. -/
def Heap.makeSubsetRef (h : Heap) (d : DatasetRef) (allImages : List Nat) (ss : Int) :
    Option (Heap × DatasetRef) :=
  let hc := h.deepcopyRef d
  let indexes := pySliceTake allImages ss
  match firstOfGroups (h.imagesDictRef d) indexes with
  | none => none
  | some imgAddrs' =>
    let image_annotations :=
      to_dict (fun a => (hc.1.readAnn a).image_id) hc.2.annAddrs
    match firstOfGroups image_annotations
        (pyKeys (fun a => (hc.1.readImg a).id) imgAddrs') with
    | none => none
    | some annAddrs' =>
      some (hc.1, { imgAddrs := imgAddrs', annAddrs := annAddrs', catAddrs := hc.2.catAddrs })

/-- The `for ss in subset_sizes` loop at the identity level, threading the
heap through the per-subset deepcopies. -/
def Heap.splitGoRef (d : DatasetRef) : List Int → List Nat → Heap → Option (Heap × List DatasetRef)
  | [], _, h => some (h, [])
  | ss :: rest, allImages, h =>
    match h.makeSubsetRef d allImages ss with
    | none => none
    | some (h1, sub) =>
      match Heap.splitGoRef d rest (pySliceDrop allImages ss) h1 with
      | none => none
      | some (h2, subs) => some (h2, sub :: subs)

/-- `CocoDataset.split(*percentages, random=False)` at the identity level. -/
def Heap.splitRef (h : Heap) (d : DatasetRef) (percentages : List ℚ) :
    Except SplitError (Heap × List DatasetRef) :=
  let allImages := pyKeys (fun a => (h.readImg a).id) d.imgAddrs
  if percentages.sum = 1 then
    match Heap.splitGoRef d (subsetSizes allImages.length percentages) allImages h with
    | some r => .ok r
    | none => .error .keyError
  else .error .invalidSplit

/-! ## Lemmas about the value-level `split` -/

theorem ratTrunc_of_nonneg {q : ℚ} (h : 0 ≤ q) : ratTrunc q = ⌊q⌋ := by
  rw [ratTrunc, if_pos h]

theorem subsetSizes_nonneg {total : Nat} {perc : List ℚ} (hpos : ∀ p ∈ perc, 0 ≤ p) :
    ∀ ss ∈ subsetSizes total perc, 0 ≤ ss := by
  intro ss hss
  rcases List.mem_map.mp hss with ⟨p, hp, rfl⟩
  rw [ratTrunc_of_nonneg (mul_nonneg (by positivity) (hpos p hp))]
  exact Int.floor_nonneg.mpr (mul_nonneg (by positivity) (hpos p hp))

theorem pySliceTake_of_nonneg {α : Type} (xs : List α) {i : Int} (h : 0 ≤ i) :
    pySliceTake xs i = xs.take i.toNat := by
  rw [pySliceTake, pySliceLen, if_pos h]

theorem pySliceDrop_of_nonneg {α : Type} (xs : List α) {i : Int} (h : 0 ≤ i) :
    pySliceDrop xs i = xs.drop i.toNat := by
  rw [pySliceDrop, pySliceLen, if_pos h]

theorem chunksOf_flatten {α : Type} : ∀ (ns : List Nat) (xs : List α),
    (chunksOf ns xs).flatten = xs.take ns.sum
  | [], xs => by simp [chunksOf]
  | n :: ns, xs => by
    simp only [chunksOf, List.flatten_cons, chunksOf_flatten ns (xs.drop n), List.sum_cons]
    rw [List.take_add]

/-- Inversion of a successful `makeSubset`. -/
theorem CocoDataset.makeSubset_some {d sub : CocoDataset} {L : List Nat} {ss : Int}
    (h : d.makeSubset L ss = some sub) :
    ∃ imgs anns,
      firstOfGroups d.imagesDict (pySliceTake L ss) = some imgs
        ∧ firstOfGroups (to_dict AnnotationRec.image_id d.tree.annotations)
            (pyKeys Image.id imgs) = some anns
        ∧ sub = ⟨⟨imgs, anns, d.tree.categories⟩⟩ := by
  simp only [CocoDataset.makeSubset] at h
  split at h
  · cases h
  · rename_i imgs h1
    split at h
    · cases h
    · rename_i anns h2
      cases h
      exact ⟨imgs, anns, h1, h2, rfl⟩

/-- A subset's image-id list is exactly the consumed slice of the pool. -/
theorem CocoDataset.imageIds_makeSubset {d sub : CocoDataset} {L : List Nat} {ss : Int}
    (h : d.makeSubset L ss = some sub) : imageIds sub = pySliceTake L ss := by
  rcases CocoDataset.makeSubset_some h with ⟨imgs, anns, h1, _, rfl⟩
  exact firstOfGroups_map_key Image.id d.tree.images h1

/-- Every subset produced by the split loop comes from some `makeSubset`. -/
theorem CocoDataset.splitGo_mem {d : CocoDataset} :
    ∀ {sizes : List Int} {L : List Nat} {subs : List CocoDataset},
      d.splitGo sizes L = some subs → ∀ s ∈ subs, ∃ L' ss, d.makeSubset L' ss = some s := by
  intro sizes
  induction sizes with
  | nil =>
    intro L subs h s hs
    simp only [CocoDataset.splitGo] at h
    cases h; cases hs
  | cons ss rest ih =>
    intro L subs h s hs
    simp only [CocoDataset.splitGo] at h
    cases h1 : d.makeSubset L ss with
    | none => rw [h1] at h; cases h
    | some sub =>
      rw [h1] at h
      cases h2 : d.splitGo rest (pySliceDrop L ss) with
      | none => rw [h2] at h; cases h
      | some subs' =>
        rw [h2] at h
        simp only [Option.map_some'] at h
        cases h
        rcases List.mem_cons.mp hs with he | hm
        · exact ⟨L, ss, he ▸ h1⟩
        · exact ih h2 s hm

/-- For non-negative sizes the split loop consumes consecutive chunks. -/
theorem CocoDataset.splitGo_imageIds {d : CocoDataset} :
    ∀ {sizes : List Int} {L : List Nat} {subs : List CocoDataset},
      d.splitGo sizes L = some subs → (∀ ss ∈ sizes, 0 ≤ ss) →
      subs.map imageIds = chunksOf (sizes.map Int.toNat) L := by
  intro sizes
  induction sizes with
  | nil =>
    intro L subs h _
    simp only [CocoDataset.splitGo] at h
    cases h; rfl
  | cons ss rest ih =>
    intro L subs h hpos
    simp only [CocoDataset.splitGo] at h
    cases h1 : d.makeSubset L ss with
    | none => rw [h1] at h; cases h
    | some sub =>
      rw [h1] at h
      cases h2 : d.splitGo rest (pySliceDrop L ss) with
      | none => rw [h2] at h; cases h
      | some subs' =>
        rw [h2] at h
        simp only [Option.map_some'] at h
        cases h
        have hss : 0 ≤ ss := hpos ss (List.mem_cons_self ss rest)
        simp only [List.map_cons, chunksOf]
        rw [CocoDataset.imageIds_makeSubset h1, pySliceTake_of_nonneg L hss,
          ih h2 (fun z hz => hpos z (List.mem_cons_of_mem ss hz)),
          pySliceDrop_of_nonneg L hss]

/-- Extraction of the loop run from a successful `splitWithOrder`. -/
theorem CocoDataset.splitWithOrder_ok {d : CocoDataset} {perc : List ℚ} {order : List Nat}
    {subs : List CocoDataset} (h : d.splitWithOrder perc order = .ok subs) :
    perc.sum = 1 ∧ d.splitGo (subsetSizes order.length perc) order = some subs := by
  by_cases hs : perc.sum = 1
  · refine ⟨hs, ?_⟩
    rw [CocoDataset.splitWithOrder, if_pos hs] at h
    cases hg : d.splitGo (subsetSizes order.length perc) order with
    | none => rw [hg] at h; cases h
    | some subs' => rw [hg] at h; cases h; rfl
  · rw [CocoDataset.splitWithOrder, if_neg hs] at h
    cases h

/-- Arithmetic bound: for non-negative percentages summing to 1, the
truncated sizes sum to at most the pool size. -/
theorem subsetSizes_sum_le (L : Nat) {perc : List ℚ} (hpos : ∀ p ∈ perc, 0 ≤ p)
    (hsum : perc.sum = 1) :
    ((subsetSizes L perc).map Int.toNat).sum ≤ L := by
  have hcast : (((subsetSizes L perc).map Int.toNat).sum : ℚ) ≤ (L : ℚ) := by
    have hpoint : ∀ p ∈ perc, (((ratTrunc ((L : ℚ) * p)).toNat : ℚ)) ≤ (L : ℚ) * p := by
      intro p hp
      have h0 : (0 : ℚ) ≤ (L : ℚ) * p := mul_nonneg (by positivity) (hpos p hp)
      have hfl : 0 ≤ ⌊(L : ℚ) * p⌋ := Int.floor_nonneg.mpr h0
      rw [ratTrunc_of_nonneg h0]
      calc ((⌊(L : ℚ) * p⌋.toNat : ℚ)) = ((⌊(L : ℚ) * p⌋ : ℤ) : ℚ) := by
            exact_mod_cast congrArg (fun z => ((z : ℤ) : ℚ)) (Int.toNat_of_nonneg hfl)
        _ ≤ (L : ℚ) * p := Int.floor_le _
    calc (((subsetSizes L perc).map Int.toNat).sum : ℚ)
        = (perc.map (fun p => ((ratTrunc ((L : ℚ) * p)).toNat : ℚ))).sum := by
          rw [Nat.cast_list_sum, subsetSizes, List.map_map, List.map_map]; rfl
      _ ≤ (perc.map (fun p => (L : ℚ) * p)).sum := List.sum_le_sum hpoint
      _ = (L : ℚ) * perc.sum := by
          have hmul := List.sum_map_mul_left perc id (L : ℚ)
          simpa using hmul
      _ = (L : ℚ) := by rw [hsum, mul_one]
  exact_mod_cast hcast

/-- The truncated sizes written with `Int.floor`, as the spec states them. -/
theorem subsetSizes_eq_floor (L : Nat) {perc : List ℚ} (hpos : ∀ p ∈ perc, 0 ≤ p) :
    (subsetSizes L perc).map Int.toNat = perc.map (fun p => (⌊(L : ℚ) * p⌋).toNat) := by
  rw [subsetSizes, List.map_map]
  refine List.map_congr_left (fun p hp => ?_)
  simp only [Function.comp_apply]
  rw [ratTrunc_of_nonneg (mul_nonneg (by positivity) (hpos p hp))]

/-! ## Concrete stores used by the scenarios and witnesses -/

/-- The spec's scenario store: 10 images, 2 categories, one annotation per
image. -/
def demoStore10 : CocoDataset :=
  ⟨⟨[⟨1, ""⟩, ⟨2, ""⟩, ⟨3, ""⟩, ⟨4, ""⟩, ⟨5, ""⟩, ⟨6, ""⟩, ⟨7, ""⟩, ⟨8, ""⟩, ⟨9, ""⟩, ⟨10, ""⟩],
    [⟨1, 1, 1⟩, ⟨2, 2, 1⟩, ⟨3, 3, 1⟩, ⟨4, 4, 2⟩, ⟨5, 5, 2⟩,
      ⟨6, 6, 1⟩, ⟨7, 7, 1⟩, ⟨8, 8, 2⟩, ⟨9, 9, 2⟩, ⟨10, 10, 1⟩],
    [⟨1, "a"⟩, ⟨2, "b"⟩]⟩⟩

/-- The three subsets `split` returns on `demoStore10` with percentages
`(0.5, 0.3, 0.2)` and `random=False`. -/
def demoSubs10 : List CocoDataset :=
  [⟨⟨[⟨1, ""⟩, ⟨2, ""⟩, ⟨3, ""⟩, ⟨4, ""⟩, ⟨5, ""⟩],
      [⟨1, 1, 1⟩, ⟨2, 2, 1⟩, ⟨3, 3, 1⟩, ⟨4, 4, 2⟩, ⟨5, 5, 2⟩],
      [⟨1, "a"⟩, ⟨2, "b"⟩]⟩⟩,
    ⟨⟨[⟨6, ""⟩, ⟨7, ""⟩, ⟨8, ""⟩],
      [⟨6, 6, 1⟩, ⟨7, 7, 1⟩, ⟨8, 8, 2⟩],
      [⟨1, "a"⟩, ⟨2, "b"⟩]⟩⟩,
    ⟨⟨[⟨9, ""⟩, ⟨10, ""⟩],
      [⟨9, 9, 2⟩, ⟨10, 10, 1⟩],
      [⟨1, "a"⟩, ⟨2, "b"⟩]⟩⟩]

/-- A 3-image store on which `(0.5, 0.5)` drops one image. -/
def deficitStore : CocoDataset :=
  ⟨⟨[⟨1, ""⟩, ⟨2, ""⟩, ⟨3, ""⟩], [⟨1, 1, 1⟩, ⟨2, 2, 1⟩, ⟨3, 3, 1⟩], [⟨1, "a"⟩]⟩⟩

/-- The two singleton subsets `split` returns on `deficitStore` with
percentages `(0.5, 0.5)`. -/
def deficitSubs : List CocoDataset :=
  [⟨⟨[⟨1, ""⟩], [⟨1, 1, 1⟩], [⟨1, "a"⟩]⟩⟩, ⟨⟨[⟨2, ""⟩], [⟨2, 2, 1⟩], [⟨1, "a"⟩]⟩⟩]

/-- A one-image store used as a minimal witness input. -/
def w1Store : CocoDataset := ⟨⟨[⟨1, ""⟩], [⟨1, 1, 1⟩], [⟨1, "a"⟩]⟩⟩

/-- The single subset of a full (100%) split of `w1Store`. -/
def w1Sub : CocoDataset := ⟨⟨[⟨1, ""⟩], [⟨1, 1, 1⟩], [⟨1, "a"⟩]⟩⟩

/-- A one-image store whose image carries two annotations (a multi-object
image). -/
def w3Store : CocoDataset := ⟨⟨[⟨1, ""⟩], [⟨1, 1, 1⟩, ⟨2, 1, 2⟩], [⟨1, "a"⟩, ⟨2, "b"⟩]⟩⟩

/-- The single subset of a full split of `w3Store`: only the first of the
two annotations survives. -/
def w3Sub : CocoDataset := ⟨⟨[⟨1, ""⟩], [⟨1, 1, 1⟩], [⟨1, "a"⟩, ⟨2, "b"⟩]⟩⟩

/-- A 2-image store whose second image has no annotations. -/
def w10Store : CocoDataset := ⟨⟨[⟨1, ""⟩, ⟨2, ""⟩], [⟨1, 1, 1⟩], [⟨1, "a"⟩]⟩⟩

theorem demo_split_eq : demoStore10.split [1/2, 3/10, 1/5] = .ok demoSubs10 := by
  have hsum : ([(1 : ℚ)/2, 3/10, 1/5]).sum = 1 := by norm_num
  have horder : pyKeys Image.id demoStore10.tree.images = [1, 2, 3, 4, 5, 6, 7, 8, 9, 10] := by
    decide
  rw [CocoDataset.split, CocoDataset.splitWithOrder, horder, if_pos hsum]
  have hsizes : subsetSizes ([1, 2, 3, 4, 5, 6, 7, 8, 9, 10] : List Nat).length
      [(1 : ℚ)/2, 3/10, 1/5] = [5, 3, 2] := by
    rw [subsetSizes]
    norm_num [ratTrunc]
  rw [hsizes]
  decide

theorem deficit_split_eq : deficitStore.split [1/2, 1/2] = .ok deficitSubs := by
  have hsum : ([(1 : ℚ)/2, 1/2]).sum = 1 := by norm_num
  have horder : pyKeys Image.id deficitStore.tree.images = [1, 2, 3] := by decide
  rw [CocoDataset.split, CocoDataset.splitWithOrder, horder, if_pos hsum]
  have hsizes : subsetSizes ([1, 2, 3] : List Nat).length [(1 : ℚ)/2, 1/2] = [1, 1] := by
    rw [subsetSizes]
    norm_num [ratTrunc]
  rw [hsizes]
  decide

theorem w1_split_eq : w1Store.splitWithOrder [1] [1] = .ok [w1Sub] := by
  have hsum : ([(1 : ℚ)]).sum = 1 := by norm_num
  rw [CocoDataset.splitWithOrder, if_pos hsum]
  have hsizes : subsetSizes ([1] : List Nat).length [(1 : ℚ)] = [1] := by
    rw [subsetSizes]
    norm_num [ratTrunc]
  rw [hsizes]
  decide

theorem w3_split_eq : w3Store.splitWithOrder [1] [1] = .ok [w3Sub] := by
  have hsum : ([(1 : ℚ)]).sum = 1 := by norm_num
  rw [CocoDataset.splitWithOrder, if_pos hsum]
  have hsizes : subsetSizes ([1] : List Nat).length [(1 : ℚ)] = [1] := by
    rw [subsetSizes]
    norm_num [ratTrunc]
  rw [hsizes]
  decide

/-! ## Claim theorems -/

/-- C4: `split` fails with the invalid-split error (the failed percentage
`assert`, line 65) exactly when the percentages do not sum to exactly 1; a
sum of exactly 1 never produces that error. -/
theorem split_invalid_percentages_iff (d : CocoDataset) (perc : List ℚ) :
    d.split perc = .error SplitError.invalidSplit ↔ perc.sum ≠ 1 := by
  rw [CocoDataset.split, CocoDataset.splitWithOrder]
  by_cases hs : perc.sum = 1
  · rw [if_pos hs]
    cases hg : d.splitGo (subsetSizes (pyKeys Image.id d.tree.images).length perc)
        (pyKeys Image.id d.tree.images) with
    | none => simp [hs]
    | some subs => simp [hs]
  · rw [if_neg hs]
    simp [hs]

/-- C1: for non-negative percentages summing to 1, a successful `split`
returns subsets whose image-id sets are pairwise disjoint with union size
`sum(floor(total * p_i))` (which the `deficitStore` instance shows can be
strictly below the total image count), and the 10-image scenario with
percentages `(0.5, 0.3, 0.2)` and `random=False` yields subsets of exactly
5, 3 and 2 images, in that order. -/
theorem split_partition_sizes (d : CocoDataset) (perc : List ℚ) (order : List Nat)
    (subs : List CocoDataset)
    (hnd : order.Nodup) (hpos : ∀ p ∈ perc, 0 ≤ p) (hsum : perc.sum = 1)
    (hok : d.splitWithOrder perc order = .ok subs) :
    ((subs.map imageIds).flatten.Nodup
        ∧ (subs.map imageIds).Pairwise List.Disjoint
        ∧ (subs.map imageIds).flatten.length
            = (perc.map (fun p => (⌊(order.length : ℚ) * p⌋).toNat)).sum)
    ∧ (demoStore10.split [1/2, 3/10, 1/5] = .ok demoSubs10
        ∧ demoSubs10.map (fun s => (imageIds s).length) = [5, 3, 2]
        ∧ deficitStore.split [1/2, 1/2] = .ok deficitSubs
        ∧ (deficitSubs.map imageIds).flatten.length < (imageIds deficitStore).length) := by
  have hgo := (CocoDataset.splitWithOrder_ok hok).2
  have hchunks := CocoDataset.splitGo_imageIds hgo (subsetSizes_nonneg hpos)
  have hflat : (subs.map imageIds).flatten
      = order.take ((subsetSizes order.length perc).map Int.toNat).sum := by
    rw [hchunks, chunksOf_flatten]
  have hle := subsetSizes_sum_le order.length hpos hsum
  have hnodup : (subs.map imageIds).flatten.Nodup := by
    rw [hflat]
    exact hnd.sublist (List.take_sublist _ _)
  refine ⟨⟨hnodup, (List.nodup_flatten.mp hnodup).2, ?_⟩,
    demo_split_eq, by decide, deficit_split_eq, by decide⟩
  rw [hflat, List.length_take, min_eq_left hle, subsetSizes_eq_floor order.length hpos]

/-- Witness for C1: a full split of the one-image store discharges every
hypothesis of `split_partition_sizes` at a concrete input. -/
theorem split_partition_sizes_witness :
    (([1] : List Nat).Nodup ∧ (∀ p ∈ [(1 : ℚ)], 0 ≤ p) ∧ ([(1 : ℚ)]).sum = 1
        ∧ w1Store.splitWithOrder [1] [1] = .ok [w1Sub])
    ∧ ((([w1Sub].map imageIds).flatten.Nodup
        ∧ ([w1Sub].map imageIds).Pairwise List.Disjoint
        ∧ ([w1Sub].map imageIds).flatten.length
            = ([(1 : ℚ)].map (fun p => (⌊((([1] : List Nat).length : ℚ)) * p⌋).toNat)).sum)
      ∧ (demoStore10.split [1/2, 3/10, 1/5] = .ok demoSubs10
        ∧ demoSubs10.map (fun s => (imageIds s).length) = [5, 3, 2]
        ∧ deficitStore.split [1/2, 1/2] = .ok deficitSubs
        ∧ (deficitSubs.map imageIds).flatten.length < (imageIds deficitStore).length)) :=
  ⟨⟨by decide, by norm_num, by norm_num, w1_split_eq⟩,
    split_partition_sizes w1Store [1] [1] [w1Sub] (by decide) (by norm_num) (by norm_num)
      w1_split_eq⟩

/-- C2: in any subset returned by a successful `split`, each selected image
id keeps exactly one annotation, namely the first annotation grouped under
that image id in the source store's order; the rest are dropped. -/
theorem split_single_annotation_per_image (d : CocoDataset) (perc : List ℚ)
    (order : List Nat) (subs : List CocoDataset) (s : CocoDataset) (i : Nat)
    (hok : d.splitWithOrder perc order = .ok subs) (hs : s ∈ subs) (hi : i ∈ imageIds s) :
    s.tree.annotations.filter (fun a => a.image_id == i)
        = (d.tree.annotations.filter (fun a => a.image_id == i)).take 1
    ∧ (s.tree.annotations.filter (fun a => a.image_id == i)).length = 1 := by
  have hgo := (CocoDataset.splitWithOrder_ok hok).2
  rcases CocoDataset.splitGo_mem hgo s hs with ⟨L', ss, hmk⟩
  rcases CocoDataset.makeSubset_some hmk with ⟨imgs, anns, h1, h2, rfl⟩
  dsimp only [imageIds] at hi
  dsimp only
  have hks : i ∈ pyKeys Image.id imgs := (mem_pyKeys Image.id).mpr hi
  have hnd : (pyKeys Image.id imgs).Nodup := pyKeys_nodup Image.id imgs
  have hfil := firstOfGroups_filter AnnotationRec.image_id d.tree.annotations h2 hnd i
  rw [if_pos hks] at hfil
  refine ⟨hfil, ?_⟩
  have hiin : i ∈ d.tree.annotations.map AnnotationRec.image_id := by
    by_contra hno
    have hnone := firstOfGroups_none AnnotationRec.image_id d.tree.annotations hno hks
    rw [hnone] at h2; cases h2
  have hne := filter_key_ne_nil AnnotationRec.image_id d.tree.annotations hiin
  rw [hfil]
  cases hflt : d.tree.annotations.filter (fun a => a.image_id == i) with
  | nil => exact absurd hflt hne
  | cons b t => simp

/-- Witness for C2: the two-annotation image of `w3Store` keeps only its
first annotation in the split subset. -/
theorem split_single_annotation_per_image_witness :
    (w3Store.splitWithOrder [1] [1] = .ok [w3Sub] ∧ w3Sub ∈ [w3Sub] ∧ 1 ∈ imageIds w3Sub)
    ∧ (w3Sub.tree.annotations.filter (fun a => a.image_id == 1)
          = (w3Store.tree.annotations.filter (fun a => a.image_id == 1)).take 1
        ∧ (w3Sub.tree.annotations.filter (fun a => a.image_id == 1)).length = 1) :=
  ⟨⟨w3_split_eq, by decide, by decide⟩,
    split_single_annotation_per_image w3Store [1] [1] [w3Sub] w3Sub 1 w3_split_eq
      (by decide) (by decide)⟩

/-- The split loop aborts with the modelled `KeyError` as soon as a consumed
image id has no annotation group. -/
theorem CocoDataset.splitGo_none_of_missing {d : CocoDataset} {i : Nat}
    (hnoann : i ∉ d.tree.annotations.map AnnotationRec.image_id) :
    ∀ (sizes : List Int) (L : List Nat), (∀ ss ∈ sizes, 0 ≤ ss) →
      i ∈ L.take ((sizes.map Int.toNat).sum) → d.splitGo sizes L = none := by
  intro sizes
  induction sizes with
  | nil =>
    intro L _ hmem
    simp at hmem
  | cons ss rest ih =>
    intro L hpos hmem
    have hss : 0 ≤ ss := hpos ss (List.mem_cons_self ss rest)
    simp only [CocoDataset.splitGo]
    cases h1 : d.makeSubset L ss with
    | none => rfl
    | some sub =>
      rw [List.map_cons, List.sum_cons, List.take_add] at hmem
      rcases List.mem_append.mp hmem with hin | hin
      · exfalso
        rcases CocoDataset.makeSubset_some h1 with ⟨imgs, anns, hf1, hf2, _⟩
        have hidx : imgs.map Image.id = pySliceTake L ss :=
          firstOfGroups_map_key Image.id d.tree.images hf1
        have hiimgs : i ∈ imgs.map Image.id := by
          rw [hidx, pySliceTake_of_nonneg L hss]
          exact hin
        have hkmem : i ∈ pyKeys Image.id imgs := (mem_pyKeys Image.id).mpr hiimgs
        have hnone := firstOfGroups_none AnnotationRec.image_id d.tree.annotations hnoann hkmem
        rw [hnone] at hf2
        cases hf2
      · have hrec : d.splitGo rest (pySliceDrop L ss) = none := by
          refine ih _ (fun z hz => hpos z (List.mem_cons_of_mem ss hz)) ?_
          rw [pySliceDrop_of_nonneg L hss]
          exact hin
        rw [hrec]
        rfl

/-- C10: if some image consumed into a subset has no annotations in the
source store, `split` does not return subsets: it aborts with the uncaught
key-lookup error from the annotation rebuild (lines 82-83). -/
theorem split_keyerror_on_image_without_annotations (d : CocoDataset) (perc : List ℚ) (i : Nat)
    (hpos : ∀ p ∈ perc, 0 ≤ p) (hsum : perc.sum = 1)
    (hsel : i ∈ (pyKeys Image.id d.tree.images).take
        (((subsetSizes (pyKeys Image.id d.tree.images).length perc).map Int.toNat).sum))
    (hnoann : i ∉ d.tree.annotations.map AnnotationRec.image_id) :
    d.split perc = .error SplitError.keyError := by
  rw [CocoDataset.split, CocoDataset.splitWithOrder, if_pos hsum]
  have hnone := CocoDataset.splitGo_none_of_missing hnoann
    (subsetSizes (pyKeys Image.id d.tree.images).length perc)
    (pyKeys Image.id d.tree.images) (subsetSizes_nonneg hpos) hsel
  rw [hnone]

theorem w10_sizes : subsetSizes (pyKeys Image.id w10Store.tree.images).length [(1 : ℚ)] = [2] := by
  have hlen : (pyKeys Image.id w10Store.tree.images).length = 2 := by decide
  rw [hlen, subsetSizes]
  norm_num [ratTrunc]

theorem w10_sel : 2 ∈ (pyKeys Image.id w10Store.tree.images).take
    (((subsetSizes (pyKeys Image.id w10Store.tree.images).length [(1 : ℚ)]).map Int.toNat).sum) := by
  rw [w10_sizes]
  decide

/-- Witness for C10: on the store whose image 2 has no annotations, a full
split errors out with the key-lookup failure. -/
theorem split_keyerror_on_image_without_annotations_witness :
    ((∀ p ∈ [(1 : ℚ)], 0 ≤ p) ∧ ([(1 : ℚ)]).sum = 1
        ∧ 2 ∈ (pyKeys Image.id w10Store.tree.images).take
            (((subsetSizes (pyKeys Image.id w10Store.tree.images).length
                [(1 : ℚ)]).map Int.toNat).sum)
        ∧ 2 ∉ w10Store.tree.annotations.map AnnotationRec.image_id)
    ∧ w10Store.split [(1 : ℚ)] = .error SplitError.keyError :=
  ⟨⟨by norm_num, by norm_num, w10_sel, by decide⟩,
    split_keyerror_on_image_without_annotations w10Store [1] 2 (by norm_num) (by norm_num)
      w10_sel (by decide)⟩

/-- Case analysis of Python list indexing: outside `[-len, len)` it raises
`IndexError`, inside it returns an element of the list. -/
theorem pyListGet?_cases {α : Type} (xs : List α) (i : Int) :
    (¬(-(xs.length : Int) ≤ i ∧ i < (xs.length : Int)) ∧ pyListGet? xs i = none)
    ∨ ((-(xs.length : Int) ≤ i ∧ i < (xs.length : Int))
        ∧ ∃ a, pyListGet? xs i = some a ∧ a ∈ xs) := by
  simp only [pyListGet?]
  by_cases hneg : i < 0
  · rw [if_pos hneg]
    by_cases hc : 0 ≤ (xs.length : Int) + i ∧ (xs.length : Int) + i < (xs.length : Int)
    · rw [if_pos hc]
      have hlt : ((xs.length : Int) + i).toNat < xs.length := by omega
      refine Or.inr ⟨⟨by omega, by omega⟩, xs.get ⟨_, hlt⟩, List.get?_eq_get hlt, List.get_mem ..⟩
    · rw [if_neg hc]
      exact Or.inl ⟨fun hb => hc ⟨by omega, by omega⟩, rfl⟩
  · rw [if_neg hneg]
    by_cases hc : 0 ≤ i ∧ i < (xs.length : Int)
    · rw [if_pos hc]
      have hlt : i.toNat < xs.length := by omega
      refine Or.inr ⟨⟨by omega, by omega⟩, xs.get ⟨_, hlt⟩, List.get?_eq_get hlt, List.get_mem ..⟩
    · rw [if_neg hc]
      exact Or.inl ⟨fun hb => hc ⟨by omega, by omega⟩, rfl⟩

/-- C9 (amended): with valid collaborators and a store satisfying the
referential invariants, `__getitem__` raises the index error exactly for
indices outside `[-length(), length())` — Python's negative indices count
from the end — and succeeds on every index inside that range. -/
theorem getitem_index_bounds_amended (t : CocoData) (idx : Int)
    (himg : ∀ a ∈ t.annotations, a.image_id ∈ t.images.map Image.id)
    (hcat : ∀ a ∈ t.annotations, a.category_id ∈ t.categories.map CategoryRec.id) :
    ((∃ v, CocoDatasetClassification.getitem t idx = .ok v)
        ↔ (-(CocoDatasetClassification.len t : Int) ≤ idx
            ∧ idx < (CocoDatasetClassification.len t : Int)))
    ∧ (CocoDatasetClassification.getitem t idx = .error GetItemError.indexError
        ↔ ¬(-(CocoDatasetClassification.len t : Int) ≤ idx
            ∧ idx < (CocoDatasetClassification.len t : Int))) := by
  have hlen : (CocoDatasetClassification.len t : Int) = (t.annotations.length : Int) := rfl
  rcases pyListGet?_cases t.annotations idx with ⟨hout, hnone⟩ | ⟨hin, a, hsome, hmem⟩
  · have hval : CocoDatasetClassification.getitem t idx = .error .indexError := by
      simp only [CocoDatasetClassification.getitem, hnone]
    rw [hlen]
    refine ⟨⟨fun ⟨v, hv⟩ => ?_, fun hc => absurd hc hout⟩, ⟨fun _ => hout, fun _ => hval⟩⟩
    rw [hval] at hv
    cases hv
  · obtain ⟨gi, hgeti, bi, hheadi⟩ :
        ∃ g, dictGet? (to_dict Image.id t.images) a.image_id = some g
          ∧ ∃ b, g.head? = some b := by
      have hm := himg a hmem
      rw [dictGet?_to_dict, if_pos ((mem_pyKeys Image.id).mpr hm)]
      have hne := filter_key_ne_nil Image.id t.images hm
      cases hflt : t.images.filter (fun r => Image.id r == a.image_id) with
      | nil => exact absurd hflt hne
      | cons b bt => exact ⟨_, rfl, b, rfl⟩
    obtain ⟨gc, hgetc, bc, hheadc⟩ :
        ∃ g, dictGet? (to_dict CategoryRec.id t.categories) a.category_id = some g
          ∧ ∃ b, g.head? = some b := by
      have hm := hcat a hmem
      rw [dictGet?_to_dict, if_pos ((mem_pyKeys CategoryRec.id).mpr hm)]
      have hne := filter_key_ne_nil CategoryRec.id t.categories hm
      cases hflt : t.categories.filter (fun r => CategoryRec.id r == a.category_id) with
      | nil => exact absurd hflt hne
      | cons b bt => exact ⟨_, rfl, b, rfl⟩
    have hval : CocoDatasetClassification.getitem t idx
        = .ok (bi.file_name, (bc.id : Int) - 1) := by
      simp only [CocoDatasetClassification.getitem, hsome, hgeti, hheadi, hgetc, hheadc]
    rw [hlen]
    refine ⟨⟨fun _ => hin, fun _ => ⟨_, hval⟩⟩, ⟨fun hv => ?_, fun hc => absurd hin hc⟩⟩
    rw [hval] at hv
    cases hv

/-- Counterexample for C9 as stated: index `-1` lies outside `[0, length())`
yet `__getitem__` succeeds on it (Python negative indexing), instead of
failing with the index error. -/
theorem getitem_negative_index_counterexample :
    CocoDatasetClassification.getitem w1Store.tree (-1) = .ok ("", 0)
    ∧ ¬((0 : Int) ≤ -1
        ∧ (-1 : Int) < (CocoDatasetClassification.len w1Store.tree : Int)) := by
  constructor
  · decide
  · decide

/-- Witness for C9 (amended) at the one-image store and index 0. -/
theorem getitem_index_bounds_amended_witness :
    ((∀ a ∈ w1Store.tree.annotations, a.image_id ∈ w1Store.tree.images.map Image.id)
      ∧ (∀ a ∈ w1Store.tree.annotations,
          a.category_id ∈ w1Store.tree.categories.map CategoryRec.id))
    ∧ (((∃ v, CocoDatasetClassification.getitem w1Store.tree 0 = .ok v)
        ↔ (-(CocoDatasetClassification.len w1Store.tree : Int) ≤ 0
            ∧ (0 : Int) < (CocoDatasetClassification.len w1Store.tree : Int)))
      ∧ (CocoDatasetClassification.getitem w1Store.tree 0 = .error GetItemError.indexError
        ↔ ¬(-(CocoDatasetClassification.len w1Store.tree : Int) ≤ 0
            ∧ (0 : Int) < (CocoDatasetClassification.len w1Store.tree : Int)))) :=
  ⟨⟨by decide, by decide⟩,
    getitem_index_bounds_amended w1Store.tree 0 (by decide) (by decide)⟩

/-! ## Lemmas about the `fit` trace -/

theorem if_lt_eq_min (v best : ℚ) : (if v < best then v else best) = min best v := by
  rcases lt_or_ge v best with h | h
  · rw [if_pos h, min_eq_right (le_of_lt h)]
  · rw [if_neg (not_lt.mpr h), min_eq_left h]

theorem fitGo_length (freq : Option Nat) :
    ∀ (vs : List ℚ) (best : ℚ) (e0 : Nat),
      (SupervisedTrainer.fitGo freq best e0 vs).length = vs.length := by
  intro vs
  induction vs with
  | nil => intro best e0; rfl
  | cons v rest ih =>
    intro best e0
    simp only [SupervisedTrainer.fitGo, List.length_cons, ih]

/-- Every epoch entry of the `fit` loop: its epoch number, its
COCO-evaluation flag, and its save flag, the latter comparing against the
minimum of the initial best value and all earlier tracked losses. -/
theorem fitGo_getD (freq : Option Nat) :
    ∀ (vs : List ℚ) (best : ℚ) (e0 k : Nat), k < vs.length →
      (SupervisedTrainer.fitGo freq best e0 vs).getD k noEpoch
        = { epoch := e0 + k, cocoEvalRun := cocoFlag freq (e0 + k),
            saved := decide (vs.getD k 0 < (vs.take k).foldl min best) } := by
  intro vs
  induction vs with
  | nil => intro best e0 k hk; cases hk
  | cons v rest ih =>
    intro best e0 k hk
    cases k with
    | zero =>
      simp [SupervisedTrainer.fitGo, List.getD_cons_zero]
    | succ k =>
      have hk' : k < rest.length := Nat.lt_of_succ_lt_succ hk
      simp only [SupervisedTrainer.fitGo, List.getD_cons_succ]
      rw [ih (if v < best then v else best) (e0 + 1) k hk']
      have he : e0 + 1 + k = e0 + (k + 1) := by omega
      have htake : ((v :: rest).take (k + 1)).foldl min best
          = (rest.take k).foldl min (if v < best then v else best) := by
        rw [List.take_succ_cons, List.foldl_cons, if_lt_eq_min]
      rw [he, htake]

/-- C5: during `fit` the model is saved at an epoch iff that epoch's tracked
validation-loss term is strictly below the best value seen so far (the
minimum of the `1e20` initialisation and all earlier epochs' values, which
is exactly what the updated `best_loss` holds); an equal value never saves.
On the loss sequence `[5, 3, 4, 2]` saves happen exactly at epochs 0, 1
and 3. -/
theorem fit_save_on_strict_improvement (freq : Option Nat) (losses : List ℚ) (e : Nat)
    (he : e < losses.length) :
    (((SupervisedTrainer.fitTrace freq losses).getD e noEpoch).saved = true
        ↔ losses.getD e 0 < (losses.take e).foldl min bestLossInit)
    ∧ (SupervisedTrainer.fitTrace none [5, 3, 4, 2]).map EpochResult.saved
        = [true, true, false, true] := by
  constructor
  · rw [SupervisedTrainer.fitTrace, fitGo_getD freq losses bestLossInit 0 e he]
    simp
  · decide

/-- Witness for C5 at the scenario input, epoch 0. -/
theorem fit_save_on_strict_improvement_witness :
    (0 < ([(5 : ℚ), 3, 4, 2]).length)
    ∧ ((((SupervisedTrainer.fitTrace none [5, 3, 4, 2]).getD 0 noEpoch).saved = true
        ↔ ([(5 : ℚ), 3, 4, 2]).getD 0 0
            < (([(5 : ℚ), 3, 4, 2]).take 0).foldl min bestLossInit)
      ∧ (SupervisedTrainer.fitTrace none [5, 3, 4, 2]).map EpochResult.saved
          = [true, true, false, true]) :=
  ⟨by decide, fit_save_on_strict_improvement none [5, 3, 4, 2] 0 (by decide)⟩

/-- C6: during `fit` with a configured positive frequency `f`, the
COCO-evaluation phase runs at epoch `e < epochs` iff `e % f = 0`; with the
frequency `None` it never runs; with `f = 2` over 5 epochs it runs at
epochs 0, 2 and 4 only. -/
theorem fit_coco_eval_schedule (f : Nat) (losses : List ℚ) (e : Nat)
    (hf : 0 < f) (he : e < losses.length) :
    (((SupervisedTrainer.fitTrace (some f) losses).getD e noEpoch).cocoEvalRun = true
        ↔ e % f = 0)
    ∧ ((SupervisedTrainer.fitTrace (some f) losses).getD e noEpoch).epoch = e
    ∧ (∀ (g : List ℚ) (k : Nat),
        ((SupervisedTrainer.fitTrace none g).getD k noEpoch).cocoEvalRun = false)
    ∧ (SupervisedTrainer.fitTrace (some 2) [1, 1, 1, 1, 1]).map EpochResult.cocoEvalRun
        = [true, false, true, false, true] := by
  refine ⟨?_, ?_, ?_, by decide⟩
  · rw [SupervisedTrainer.fitTrace, fitGo_getD (some f) losses bestLossInit 0 e he]
    simp [cocoFlag]
  · rw [SupervisedTrainer.fitTrace, fitGo_getD (some f) losses bestLossInit 0 e he]
    simp
  · intro g k
    by_cases hk : k < g.length
    · rw [SupervisedTrainer.fitTrace, fitGo_getD none g bestLossInit 0 k hk]
      rfl
    · have hge : (SupervisedTrainer.fitTrace none g).length ≤ k := by
        rw [SupervisedTrainer.fitTrace, fitGo_length]
        omega
      rw [List.getD_eq_default _ _ hge]
      rfl

/-- Witness for C6 at the scenario input (`f = 2`, 5 epochs, epoch 0). -/
theorem fit_coco_eval_schedule_witness :
    (0 < 2 ∧ 0 < ([(1 : ℚ), 1, 1, 1, 1]).length)
    ∧ ((((SupervisedTrainer.fitTrace (some 2) [1, 1, 1, 1, 1]).getD 0 noEpoch).cocoEvalRun
          = true ↔ 0 % 2 = 0)
      ∧ ((SupervisedTrainer.fitTrace (some 2) [1, 1, 1, 1, 1]).getD 0 noEpoch).epoch = 0
      ∧ (∀ (g : List ℚ) (k : Nat),
          ((SupervisedTrainer.fitTrace none g).getD k noEpoch).cocoEvalRun = false)
      ∧ (SupervisedTrainer.fitTrace (some 2) [1, 1, 1, 1, 1]).map EpochResult.cocoEvalRun
          = [true, false, true, false, true]) :=
  ⟨⟨by decide, by decide⟩, fit_coco_eval_schedule 2 [1, 1, 1, 1, 1] 0 (by decide) (by decide)⟩

/-! ## The training-phase mean (C7) -/

theorem foldl_add_field (f : LossDict → ℚ) (hf : ∀ a b, f (LossDict.add a b) = f a + f b) :
    ∀ (l : List LossDict) (z : LossDict),
      f (l.foldl LossDict.add z) = f z + (l.map f).sum := by
  intro l
  induction l with
  | nil => intro z; simp
  | cons b l ih =>
    intro z
    simp only [List.foldl_cons, List.map_cons, List.sum_cons, ih, hf]
    ring

/-- C7: the training phase returns, for every named loss term, the sum of
that term over all batches divided by the total sample count; in particular
one batch of 2 samples with `loss_mask = 4` reports a `loss_mask` mean
of 2. -/
theorem train_mean_losses (batchLosses : List LossDict) (total_images : Nat)
    (h : 0 < total_images) :
    ((SupervisedTrainer.train batchLosses total_images).loss_classifier
          = (batchLosses.map LossDict.loss_classifier).sum / (total_images : ℚ)
      ∧ (SupervisedTrainer.train batchLosses total_images).loss_box_reg
          = (batchLosses.map LossDict.loss_box_reg).sum / (total_images : ℚ)
      ∧ (SupervisedTrainer.train batchLosses total_images).loss_mask
          = (batchLosses.map LossDict.loss_mask).sum / (total_images : ℚ)
      ∧ (SupervisedTrainer.train batchLosses total_images).loss_objectness
          = (batchLosses.map LossDict.loss_objectness).sum / (total_images : ℚ)
      ∧ (SupervisedTrainer.train batchLosses total_images).loss_rpn_box_reg
          = (batchLosses.map LossDict.loss_rpn_box_reg).sum / (total_images : ℚ))
    ∧ (SupervisedTrainer.train [⟨2, 0, 4, 0, 0⟩] 2).loss_mask = 2 := by
  constructor
  · refine ⟨?_, ?_, ?_, ?_, ?_⟩
    · rw [SupervisedTrainer.train, LossDict.div,
        foldl_add_field LossDict.loss_classifier (fun a b => rfl) batchLosses LossDict.zero]
      norm_num [LossDict.zero]
    · rw [SupervisedTrainer.train, LossDict.div,
        foldl_add_field LossDict.loss_box_reg (fun a b => rfl) batchLosses LossDict.zero]
      norm_num [LossDict.zero]
    · rw [SupervisedTrainer.train, LossDict.div,
        foldl_add_field LossDict.loss_mask (fun a b => rfl) batchLosses LossDict.zero]
      norm_num [LossDict.zero]
    · rw [SupervisedTrainer.train, LossDict.div,
        foldl_add_field LossDict.loss_objectness (fun a b => rfl) batchLosses LossDict.zero]
      norm_num [LossDict.zero]
    · rw [SupervisedTrainer.train, LossDict.div,
        foldl_add_field LossDict.loss_rpn_box_reg (fun a b => rfl) batchLosses LossDict.zero]
      norm_num [LossDict.zero]
  · show ((0 : ℚ) + 4) / ((2 : Nat) : ℚ) = 2
    norm_num

/-- Witness for C7 at the spec's scenario batch. -/
theorem train_mean_losses_witness :
    (0 < 2)
    ∧ (((SupervisedTrainer.train [⟨2, 0, 4, 0, 0⟩] 2).loss_classifier
            = ([(⟨2, 0, 4, 0, 0⟩ : LossDict)].map LossDict.loss_classifier).sum / ((2 : Nat) : ℚ)
        ∧ (SupervisedTrainer.train [⟨2, 0, 4, 0, 0⟩] 2).loss_box_reg
            = ([(⟨2, 0, 4, 0, 0⟩ : LossDict)].map LossDict.loss_box_reg).sum / ((2 : Nat) : ℚ)
        ∧ (SupervisedTrainer.train [⟨2, 0, 4, 0, 0⟩] 2).loss_mask
            = ([(⟨2, 0, 4, 0, 0⟩ : LossDict)].map LossDict.loss_mask).sum / ((2 : Nat) : ℚ)
        ∧ (SupervisedTrainer.train [⟨2, 0, 4, 0, 0⟩] 2).loss_objectness
            = ([(⟨2, 0, 4, 0, 0⟩ : LossDict)].map LossDict.loss_objectness).sum / ((2 : Nat) : ℚ)
        ∧ (SupervisedTrainer.train [⟨2, 0, 4, 0, 0⟩] 2).loss_rpn_box_reg
            = ([(⟨2, 0, 4, 0, 0⟩ : LossDict)].map LossDict.loss_rpn_box_reg).sum
                / ((2 : Nat) : ℚ))
      ∧ (SupervisedTrainer.train [⟨2, 0, 4, 0, 0⟩] 2).loss_mask = 2) :=
  ⟨by decide, train_mean_losses [⟨2, 0, 4, 0, 0⟩] 2 (by decide)⟩

/-! ## The COCO-evaluation phase (C8) -/

/-- Per-image spec of the instance loop: the counter advances by the number
of kept (non-all-background) instances, and the appended annotations carry
the consecutive ids starting at the incoming counter. -/
theorem cocoEvalImage_spec (imageId : Nat) :
    ∀ (ps : List PredInstance) (aid : Nat),
      (SupervisedTrainer.cocoEvalImage aid imageId ps).1
          = aid + (ps.filter (fun p => !(p.mask.sum == 0))).length
      ∧ (SupervisedTrainer.cocoEvalImage aid imageId ps).2.map PredAnn.id
          = List.range' aid (ps.filter (fun p => !(p.mask.sum == 0))).length
      ∧ (SupervisedTrainer.cocoEvalImage aid imageId ps).2.length
          = (ps.filter (fun p => !(p.mask.sum == 0))).length := by
  intro ps
  induction ps with
  | nil => intro aid; simp [SupervisedTrainer.cocoEvalImage]
  | cons p ps ih =>
    intro aid
    by_cases hz : p.mask.sum = 0
    · have hzb : (p.mask.sum == 0) = true := by simp [hz]
      simp only [SupervisedTrainer.cocoEvalImage, hzb, if_true, List.filter_cons,
        Bool.not_true, Bool.false_eq_true, if_false]
      exact ih aid
    · have hzb : (p.mask.sum == 0) = false := by simp [hz]
      simp only [SupervisedTrainer.cocoEvalImage, hzb, Bool.false_eq_true, if_false,
        List.filter_cons, Bool.not_false, if_true]
      rcases ih (aid + 1) with ⟨ih1, ih2, ih3⟩
      refine ⟨by rw [ih1, List.length_cons]; omega, ?_, by simp [ih3]⟩
      simp only [List.map_cons, ih2, List.length_cons, List.range'_succ]

/-- The image loop: all annotation ids of a run starting at counter `aid`
are the consecutive ids `aid, aid+1, ...`, one per kept instance. -/
theorem cocoEvalGo_spec (model : Nat → List PredInstance) :
    ∀ (ids : List Nat) (aid : Nat),
      (SupervisedTrainer.cocoEvalGo model aid ids).map PredAnn.id
          = List.range' aid (SupervisedTrainer.cocoEvalGo model aid ids).length
      ∧ (SupervisedTrainer.cocoEvalGo model aid ids).length
          = (ids.map (fun i => ((model i).filter (fun p => !(p.mask.sum == 0))).length)).sum := by
  intro ids
  induction ids with
  | nil => intro aid; simp [SupervisedTrainer.cocoEvalGo]
  | cons i rest ih =>
    intro aid
    rcases cocoEvalImage_spec i (model i) aid with ⟨h1, h2, h3⟩
    rcases ih (aid + ((model i).filter (fun p => !(p.mask.sum == 0))).length) with ⟨ih1, ih2⟩
    constructor
    · simp only [SupervisedTrainer.cocoEvalGo, List.map_append, List.length_append, h2, h3,
        h1, ih1, ih2]
      rw [List.range'_append_1, Nat.add_comm]
    · simp only [SupervisedTrainer.cocoEvalGo, List.length_append, h3, h1, ih2, List.map_cons,
        List.sum_cons]

/-- C8: in the COCO-evaluation phase every predicted instance whose mask is
entirely background is skipped (the annotation count equals the number of
instances with a non-zero mask), and the annotation ids recorded in the
predictions store are exactly the consecutive ids `1, 2, ..., k` with no
duplicates. -/
theorem coco_eval_skips_empty_masks_and_ids_sequential (imgIds : List Nat)
    (model : Nat → List PredInstance) :
    (SupervisedTrainer.cocoEvalAnns imgIds model).map PredAnn.id
        = List.range' 1 (SupervisedTrainer.cocoEvalAnns imgIds model).length
    ∧ (SupervisedTrainer.cocoEvalAnns imgIds model).length
        = (imgIds.map (fun i => ((model i).filter (fun p => !(p.mask.sum == 0))).length)).sum
    ∧ ((SupervisedTrainer.cocoEvalAnns imgIds model).map PredAnn.id).Nodup := by
  rcases cocoEvalGo_spec model imgIds 1 with ⟨h1, h2⟩
  simp only [SupervisedTrainer.cocoEvalAnns]
  exact ⟨h1, h2, by rw [h1]; exact List.nodup_range' _ _⟩

/-! ## Lemmas about the object-identity split (C3) -/

theorem Heap.readImg_ext {h1 h2 : Heap} (he : ∃ t, h2.imgHeap = h1.imgHeap ++ t)
    {a : Nat} (ha : a < h1.imgHeap.length) : h2.readImg a = h1.readImg a := by
  rcases he with ⟨t, ht⟩
  unfold Heap.readImg
  rw [ht]
  simp only [List.getD_eq_getElem?_getD, List.getElem?_append_left ha]

theorem Heap.readAnns_writeAnn_frame (h : Heap) (d : DatasetRef) (a : Nat) (v : AnnotationRec)
    (ha : a ∉ d.annAddrs) : (h.writeAnn a v).readAnns d = h.readAnns d := by
  unfold Heap.readAnns Heap.writeAnn Heap.readAnn
  refine List.map_congr_left (fun b hb => ?_)
  have hne : a ≠ b := fun he => ha (he ▸ hb)
  simp only [List.getD_eq_getElem?_getD, List.getElem?_set_ne hne]

/-- Inversion of one identity-level subset construction. -/
theorem Heap.makeSubsetRef_some {h h' : Heap} {d sub : DatasetRef} {L : List Nat} {ss : Int}
    (hmk : h.makeSubsetRef d L ss = some (h', sub)) :
    h' = (h.deepcopyRef d).1
    ∧ (∀ a ∈ sub.imgAddrs, a ∈ d.imgAddrs)
    ∧ sub.imgAddrs.map (fun a => (h.readImg a).id) = pySliceTake L ss
    ∧ (∀ a ∈ sub.annAddrs, a ∈ List.range' h.annHeap.length d.annAddrs.length)
    ∧ sub.catAddrs = List.range' h.catHeap.length d.catAddrs.length := by
  simp only [Heap.makeSubsetRef] at hmk
  split at hmk
  · cases hmk
  · rename_i imgAddrs' h1
    split at hmk
    · cases hmk
    · rename_i annAddrs' h2
      cases hmk
      refine ⟨rfl, ?_, ?_, ?_, rfl⟩
      · exact fun a ha => firstOfGroups_subset _ d.imgAddrs h1 a ha
      · exact firstOfGroups_map_key _ d.imgAddrs h1
      · exact fun a ha => firstOfGroups_subset _ _ h2 a ha

theorem len_le_of_append_ext {α : Type} {l1 l2 : List α} (he : ∃ t, l2 = l1 ++ t) :
    l1.length ≤ l2.length := by
  rcases he with ⟨t, rfl⟩
  simp

theorem Heap.deepcopy_annLen (h : Heap) (d : DatasetRef) :
    (h.deepcopyRef d).1.annHeap.length = h.annHeap.length + d.annAddrs.length := by
  simp [Heap.deepcopyRef, Heap.readAnns]

theorem Heap.deepcopy_catLen (h : Heap) (d : DatasetRef) :
    (h.deepcopyRef d).1.catHeap.length = h.catHeap.length + d.catAddrs.length := by
  simp [Heap.deepcopyRef, Heap.readCats]

/-- Invariant of the identity-level split loop: the heap only grows by
appends; every subset's image addresses come from the source's and carry
pool ids; every subset's annotation/category addresses are fresh (allocated
at or beyond the incoming heap top); and no two subsets share any image,
annotation or category record address. -/
theorem Heap.splitGoRef_spec {d : DatasetRef} :
    ∀ (sizes : List Int) (L : List Nat) (h h' : Heap) (subs : List DatasetRef),
      Heap.splitGoRef d sizes L h = some (h', subs) →
      L.Nodup →
      (∀ a ∈ d.imgAddrs, a < h.imgHeap.length) →
      ((∃ t, h'.imgHeap = h.imgHeap ++ t) ∧ (∃ t, h'.annHeap = h.annHeap ++ t)
          ∧ (∃ t, h'.catHeap = h.catHeap ++ t))
      ∧ (∀ s ∈ subs,
          (∀ a ∈ s.imgAddrs, a ∈ d.imgAddrs ∧ (h.readImg a).id ∈ L)
          ∧ (∀ a ∈ s.annAddrs, h.annHeap.length ≤ a ∧ a < h'.annHeap.length)
          ∧ (∀ a ∈ s.catAddrs, h.catHeap.length ≤ a ∧ a < h'.catHeap.length))
      ∧ List.Pairwise (fun s t =>
          (∀ a ∈ s.imgAddrs, a ∉ t.imgAddrs) ∧ (∀ a ∈ s.annAddrs, a ∉ t.annAddrs)
            ∧ (∀ a ∈ s.catAddrs, a ∉ t.catAddrs)) subs := by
  intro sizes
  induction sizes with
  | nil =>
    intro L h h' subs hrun hnd hv
    simp only [Heap.splitGoRef] at hrun
    cases hrun
    refine ⟨⟨⟨[], by simp⟩, ⟨[], by simp⟩, ⟨[], by simp⟩⟩, ?_, List.Pairwise.nil⟩
    intro s hs
    cases hs
  | cons ss rest ih =>
    intro L h h' subs hrun hnd hv
    simp only [Heap.splitGoRef] at hrun
    split at hrun
    · cases hrun
    · rename_i h1 sub hmk
      split at hrun
      · cases hrun
      · rename_i h2 subs' hrec
        have hinj := Option.some.inj hrun
        have hh2 : h2 = h' := congrArg Prod.fst hinj
        have hsubs : sub :: subs' = subs := congrArg Prod.snd hinj
        subst hh2
        subst hsubs
        rcases Heap.makeSubsetRef_some hmk with ⟨hh1, himgsub, hids, hannsub, hcats⟩
        subst hh1
        have hextimg1 : ∃ t, (h.deepcopyRef d).1.imgHeap = h.imgHeap ++ t := ⟨_, rfl⟩
        have hextann1 : ∃ t, (h.deepcopyRef d).1.annHeap = h.annHeap ++ t := ⟨_, rfl⟩
        have hextcat1 : ∃ t, (h.deepcopyRef d).1.catHeap = h.catHeap ++ t := ⟨_, rfl⟩
        have hv1 : ∀ a ∈ d.imgAddrs, a < (h.deepcopyRef d).1.imgHeap.length :=
          fun a ha => lt_of_lt_of_le (hv a ha) (len_le_of_append_ext hextimg1)
        have hnd' : (pySliceDrop L ss).Nodup := by
          rw [pySliceDrop]
          exact hnd.sublist (List.drop_sublist _ _)
        rcases ih (pySliceDrop L ss) (h.deepcopyRef d).1 h2 subs' hrec hnd' hv1 with
          ⟨⟨hei, hea, hec⟩, hsubs', hpw'⟩
        have hread1 : ∀ a ∈ d.imgAddrs, ((h.deepcopyRef d).1.readImg a) = h.readImg a :=
          fun a ha => Heap.readImg_ext hextimg1 (hv a ha)
        have hannlen1 : (h.deepcopyRef d).1.annHeap.length
            = h.annHeap.length + d.annAddrs.length := Heap.deepcopy_annLen h d
        have hcatlen1 : (h.deepcopyRef d).1.catHeap.length
            = h.catHeap.length + d.catAddrs.length := Heap.deepcopy_catLen h d
        have hannle2 : (h.deepcopyRef d).1.annHeap.length ≤ h2.annHeap.length :=
          len_le_of_append_ext hea
        have hcatle2 : (h.deepcopyRef d).1.catHeap.length ≤ h2.catHeap.length :=
          len_le_of_append_ext hec
        -- sub's image ids lie in the consumed prefix, later subsets' in the rest
        have hsubids : ∀ a ∈ sub.imgAddrs,
            (h.readImg a).id ∈ L.take (pySliceLen L.length ss) := by
          intro a ha
          have : (h.readImg a).id ∈ sub.imgAddrs.map (fun a => (h.readImg a).id) :=
            List.mem_map_of_mem _ ha
          rw [hids] at this
          exact this
        have htaildrop : ∀ t ∈ subs', ∀ a ∈ t.imgAddrs,
            (h.readImg a).id ∈ L.drop (pySliceLen L.length ss) := by
          intro t ht a hat
          have hfacts := (hsubs' t ht).1 a hat
          rw [hread1 a hfacts.1] at hfacts
          rw [pySliceDrop] at hfacts
          exact hfacts.2
        have hdisj : List.Disjoint (L.take (pySliceLen L.length ss))
            (L.drop (pySliceLen L.length ss)) := by
          have : (L.take (pySliceLen L.length ss) ++ L.drop (pySliceLen L.length ss)).Nodup := by
            rw [List.take_append_drop]
            exact hnd
          exact (List.nodup_append.mp this).2.2
        refine ⟨⟨?_, ?_, ?_⟩, ?_, ?_⟩
        · rcases hextimg1 with ⟨c, hc⟩
          rcases hei with ⟨t, ht⟩
          exact ⟨c ++ t, by rw [ht, hc, List.append_assoc]⟩
        · rcases hextann1 with ⟨c, hc⟩
          rcases hea with ⟨t, ht⟩
          exact ⟨c ++ t, by rw [ht, hc, List.append_assoc]⟩
        · rcases hextcat1 with ⟨c, hc⟩
          rcases hec with ⟨t, ht⟩
          exact ⟨c ++ t, by rw [ht, hc, List.append_assoc]⟩
        · intro s hs
          rcases List.mem_cons.mp hs with rfl | hs'
          · refine ⟨?_, ?_, ?_⟩
            · intro a ha
              exact ⟨himgsub a ha, List.take_subset _ _ (by
                have := hsubids a ha
                exact this)⟩
            · intro a ha
              have hb := List.mem_range'_1.mp (hannsub a ha)
              refine ⟨hb.1, lt_of_lt_of_le ?_ hannle2⟩
              rw [hannlen1]
              exact hb.2
            · intro a ha
              rw [hcats] at ha
              have hb := List.mem_range'_1.mp ha
              refine ⟨hb.1, lt_of_lt_of_le ?_ hcatle2⟩
              rw [hcatlen1]
              exact hb.2
          · rcases hsubs' s hs' with ⟨hi, hai, hci⟩
            refine ⟨?_, ?_, ?_⟩
            · intro a ha
              rcases hi a ha with ⟨had, hidm⟩
              rw [hread1 a had] at hidm
              exact ⟨had, List.drop_subset _ _ (by rw [pySliceDrop] at hidm; exact hidm)⟩
            · intro a ha
              rcases hai a ha with ⟨h1a, h2a⟩
              refine ⟨le_trans ?_ h1a, h2a⟩
              rw [hannlen1]
              omega
            · intro a ha
              rcases hci a ha with ⟨h1a, h2a⟩
              refine ⟨le_trans ?_ h1a, h2a⟩
              rw [hcatlen1]
              omega
        · refine List.pairwise_cons.mpr ⟨?_, hpw'⟩
          intro t ht
          refine ⟨?_, ?_, ?_⟩
          · intro a ha hat
            exact hdisj (hsubids a ha) (htaildrop t ht a hat)
          · intro a ha hat
            have hb := List.mem_range'_1.mp (hannsub a ha)
            have hlow := ((hsubs' t ht).2.1 a hat).1
            rw [hannlen1] at hlow
            omega
          · intro a ha hat
            rw [hcats] at ha
            have hb := List.mem_range'_1.mp ha
            have hlow := ((hsubs' t ht).2.2 a hat).1
            rw [hcatlen1] at hlow
            omega

/-- Extraction of the loop run from a successful identity-level split. -/
theorem Heap.splitRef_ok {h h' : Heap} {d : DatasetRef} {perc : List ℚ}
    {subs : List DatasetRef} (hok : h.splitRef d perc = .ok (h', subs)) :
    Heap.splitGoRef d
      (subsetSizes (pyKeys (fun a => (h.readImg a).id) d.imgAddrs).length perc)
      (pyKeys (fun a => (h.readImg a).id) d.imgAddrs) h = some (h', subs) := by
  simp only [Heap.splitRef] at hok
  by_cases hs : perc.sum = 1
  · rw [if_pos hs] at hok
    split at hok
    · rename_i r heq
      cases hok
      exact heq
    · cases hok
  · rw [if_neg hs] at hok
    cases hok

/-- C3 (amended): after a successful `split`, no two returned subsets share
any image, annotation or category record; every subset's annotation and
category records are fresh copies not shared with the source store, and
mutating a subset's annotation record never changes the source's view.
However each subset's image records are the source dataset's own image
records (line 79 installs `self.images[i][0]`, not the deepcopied record),
so subset image records are shared with the source — the counterexample
shows a mutation through them changing the source. -/
theorem split_aliasing_amended (h : Heap) (d : DatasetRef) (perc : List ℚ)
    (h' : Heap) (subs : List DatasetRef)
    (hok : h.splitRef d perc = .ok (h', subs))
    (hvImg : ∀ a ∈ d.imgAddrs, a < h.imgHeap.length)
    (hvAnn : ∀ a ∈ d.annAddrs, a < h.annHeap.length)
    (hvCat : ∀ a ∈ d.catAddrs, a < h.catHeap.length) :
    List.Pairwise (fun s t =>
        (∀ a ∈ s.imgAddrs, a ∉ t.imgAddrs) ∧ (∀ a ∈ s.annAddrs, a ∉ t.annAddrs)
          ∧ (∀ a ∈ s.catAddrs, a ∉ t.catAddrs)) subs
    ∧ (∀ s ∈ subs, ∀ a ∈ s.annAddrs, a ∉ d.annAddrs)
    ∧ (∀ s ∈ subs, ∀ a ∈ s.catAddrs, a ∉ d.catAddrs)
    ∧ (∀ s ∈ subs, ∀ a ∈ s.imgAddrs, a ∈ d.imgAddrs)
    ∧ (∀ s ∈ subs, ∀ a ∈ s.annAddrs, ∀ v,
        (h'.writeAnn a v).readAnns d = h'.readAnns d) := by
  have hgo := Heap.splitRef_ok hok
  have hnd := pyKeys_nodup (fun a => (h.readImg a).id) d.imgAddrs
  rcases Heap.splitGoRef_spec _ _ h h' subs hgo hnd hvImg with ⟨hext, hsubs, hpw⟩
  have hfresh : ∀ s ∈ subs, ∀ a ∈ s.annAddrs, a ∉ d.annAddrs := by
    intro s hs a ha had
    have hb := (hsubs s hs).2.1 a ha
    have hc := hvAnn a had
    omega
  refine ⟨hpw, hfresh, ?_, ?_, ?_⟩
  · intro s hs a ha had
    have hb := (hsubs s hs).2.2 a ha
    have hc := hvCat a had
    omega
  · intro s hs a ha
    exact ((hsubs s hs).1 a ha).1
  · intro s hs a ha v
    exact Heap.readAnns_writeAnn_frame h' d a v (hfresh s hs a ha)

/-- A one-image source heap and dataset object. -/
def demoHeap : Heap := ⟨[⟨1, "a"⟩], [⟨1, 1, 1⟩], [⟨1, "c"⟩]⟩

/-- The source dataset object: one image record, one annotation record, one
category record, at address 0 of each heap. -/
def demoRef : DatasetRef := ⟨[0], [0], [0]⟩

/-- The heap after the single deepcopy of a full split of `demoRef`. -/
def demoHeap1 : Heap := ⟨[⟨1, "a"⟩, ⟨1, "a"⟩], [⟨1, 1, 1⟩, ⟨1, 1, 1⟩], [⟨1, "c"⟩, ⟨1, "c"⟩]⟩

/-- The subset object returned by that split: its image address is the
*source's* address 0, its annotation/category addresses are the fresh
copies at address 1. -/
def demoSubRef : DatasetRef := ⟨[0], [1], [1]⟩

theorem demo_splitRef_eq : demoHeap.splitRef demoRef [1] = .ok (demoHeap1, [demoSubRef]) := by
  have hsum : ([(1 : ℚ)]).sum = 1 := by norm_num
  simp only [Heap.splitRef]
  have hkeys : pyKeys (fun a => (demoHeap.readImg a).id) demoRef.imgAddrs = [1] := by decide
  rw [hkeys, if_pos hsum]
  have hsizes : subsetSizes ([1] : List Nat).length [(1 : ℚ)] = [1] := by
    rw [subsetSizes]
    norm_num [ratTrunc]
  rw [hsizes]
  decide

/-- Counterexample for C3 as stated: after a full split, heap address 0 is
one of the subset's image-record addresses, and mutating that record object
changes the source dataset's image view — the returned subset is not an
independent deep copy of the source. -/
theorem split_deepcopy_independence_counterexample :
    demoHeap.splitRef demoRef [1] = .ok (demoHeap1, [demoSubRef])
    ∧ 0 ∈ demoSubRef.imgAddrs
    ∧ (demoHeap1.writeImg 0 ⟨1, "m"⟩).readImages demoRef ≠ demoHeap1.readImages demoRef :=
  ⟨demo_splitRef_eq, by decide, by decide⟩

/-- Witness for C3 (amended) at the one-image heap. -/
theorem split_aliasing_amended_witness :
    (demoHeap.splitRef demoRef [1] = .ok (demoHeap1, [demoSubRef])
      ∧ (∀ a ∈ demoRef.imgAddrs, a < demoHeap.imgHeap.length)
      ∧ (∀ a ∈ demoRef.annAddrs, a < demoHeap.annHeap.length)
      ∧ (∀ a ∈ demoRef.catAddrs, a < demoHeap.catHeap.length))
    ∧ (List.Pairwise (fun s t =>
          (∀ a ∈ s.imgAddrs, a ∉ t.imgAddrs) ∧ (∀ a ∈ s.annAddrs, a ∉ t.annAddrs)
            ∧ (∀ a ∈ s.catAddrs, a ∉ t.catAddrs)) [demoSubRef]
      ∧ (∀ s ∈ [demoSubRef], ∀ a ∈ s.annAddrs, a ∉ demoRef.annAddrs)
      ∧ (∀ s ∈ [demoSubRef], ∀ a ∈ s.catAddrs, a ∉ demoRef.catAddrs)
      ∧ (∀ s ∈ [demoSubRef], ∀ a ∈ s.imgAddrs, a ∈ demoRef.imgAddrs)
      ∧ (∀ s ∈ [demoSubRef], ∀ a ∈ s.annAddrs, ∀ v,
          (demoHeap1.writeAnn a v).readAnns demoRef = demoHeap1.readAnns demoRef)) :=
  ⟨⟨demo_splitRef_eq, by decide, by decide, by decide⟩,
    split_aliasing_amended demoHeap demoRef [1] demoHeap1 [demoSubRef] demo_splitRef_eq
      (by decide) (by decide) (by decide)⟩
